import Mathlib

/-!
Shallow embedding of the real-time session hub of `src/backend/server.py`
(the `ConnectionManager` class and the `websocket_endpoint` handler), and
proofs of the specification claims about it.

Python dictionaries are modelled as insertion-ordered association lists
(`List (String × α)`): assignment to an existing key updates the value in
place (keeping the key's position), assignment to a fresh key appends, and
`del` removes.  Iterating a dict while it is mutated raises `RuntimeError`
in CPython; the embedding of `ConnectionManager.broadcast` reproduces this
(the `raised` flag of `BroadcastResult`).

WebSocket channels are identified by numerals (`Chan := Nat`); whether a
`send_text` on a channel fails is an environment parameter
`broken : Chan → Bool`.  Outbound frames are kept structured (`WireMsg`):
a relayed frame carries the raw payload string, a presence frame carries
the user list that `broadcast_presence` serialises with `json.dumps`.
-/

namespace TeamWrite

/-- The per-user record stored in `ConnectionManager.user_info`
(`server.py` lines 54-58): user id, display name, connect timestamp. -/
structure UserInfo where
  user_id : String
  user_name : String
  connected_at : String
deriving DecidableEq

/-- A websocket channel identifier. -/
abbrev Chan := Nat

/-- An outbound websocket frame: either a raw relayed payload
(`broadcast` is called with the raw received text) or the presence event
built by `broadcast_presence` from the current `user_info` values. -/
inductive WireMsg where
  | text (s : String)
  | presence (users : List UserInfo)
deriving DecidableEq

/-- Python `d[k]` lookup on an insertion-ordered dict. -/
def lookupKey (l : List (String × α)) (k : String) : Option α :=
  match l with
  | [] => none
  | p :: ps => if p.1 == k then some p.2 else lookupKey ps k

/-- Python `k in d`. -/
def containsKey (l : List (String × α)) (k : String) : Bool :=
  l.any (fun p => p.1 == k)

/-- Python `d[k] = v`: update in place if the key is present (its position
is preserved), otherwise append at the end. -/
def setKey (l : List (String × α)) (k : String) (v : α) : List (String × α) :=
  if containsKey l k then l.map (fun p => if p.1 == k then (k, v) else p)
  else l ++ [(k, v)]

/-- Python `del d[k]` guarded by `k in d` (a no-op when absent). -/
def eraseKey (l : List (String × α)) (k : String) : List (String × α) :=
  l.filter (fun p => p.1 != k)

/-- The two registries of `ConnectionManager` (`server.py` lines 43-44):
`active_connections : document_id -> {user_id: websocket}` and
`user_info : document_id -> {user_id: user_info}`. -/
structure ConnState where
  active_connections : List (String × List (String × Chan))
  user_info : List (String × List (String × UserInfo))
deriving DecidableEq

/-- The empty registry (`ConnectionManager.__init__`). -/
def ConnState.empty : ConnState := ⟨[], []⟩

/-- Update the inner dict of an outer entry: `outer[doc][uid] = v`.
When `doc` is absent Python would raise `KeyError`; in `connect` the
preceding guard has inserted `doc` into `active_connections`, and the
key-agreement invariant (claim C10) guarantees `user_info` has it too, so
the absent case is modelled as a no-op. -/
def setInner (outer : List (String × List (String × α))) (doc uid : String) (v : α) :
    List (String × List (String × α)) :=
  outer.map (fun p => if p.1 == doc then (p.1, setKey p.2 uid v) else p)

/-- Remove `uid` from the inner dict of `doc` if both are present
(`if doc in outer and uid in outer[doc]: del outer[doc][uid]`). -/
def eraseInner (outer : List (String × List (String × α))) (doc uid : String) :
    List (String × List (String × α)) :=
  outer.map (fun p => if p.1 == doc then (p.1, eraseKey p.2 uid) else p)

/-- Remove the room `doc` if it became empty
(`if doc in outer and not outer[doc]: del outer[doc]`). -/
def dropEmpty (outer : List (String × List (String × α))) (doc : String) :
    List (String × List (String × α)) :=
  outer.filter (fun p => !(p.1 == doc && p.2.isEmpty))

namespace ConnectionManager

/-- Model of `ConnectionManager.disconnect` (`server.py` lines 63-73): delete the
user from both registries, then clean the room out of both if it became
empty. -/
def disconnect (st : ConnState) (document_id user_id : String) : ConnState :=
  { active_connections :=
      dropEmpty (eraseInner st.active_connections document_id user_id) document_id
    user_info :=
      dropEmpty (eraseInner st.user_info document_id user_id) document_id }

/-- Python truthiness of `exclude_user and user_id == exclude_user`
(`server.py` line 83): the skip only happens when `exclude_user` is a
non-empty string equal to `user_id`. -/
def excludedBy (exclude : Option String) (user_id : String) : Bool :=
  match exclude with
  | none => false
  | some e => !(e == "") && (user_id == e)

/-- Result of a `broadcast` (or of an operation that ends in one):
the registry afterwards, the frames actually delivered (in send order),
and whether the call raised.  CPython raises `RuntimeError: dictionary
changed size during iteration` at the loop step following a `del` on the
dict being iterated, so a failed send — whose handler calls `disconnect`
— aborts the remainder of the fan-out with an exception. -/
structure BroadcastResult where
  state : ConnState
  delivered : List (String × WireMsg)
  raised : Bool
deriving DecidableEq

/-- The `for user_id, websocket in active_connections[doc].items()` loop
of `broadcast` (`server.py` lines 82-89).  On the first failed send the
member is disconnected and the next iterator step raises (`raised = true`);
members later in insertion order receive nothing. -/
def broadcastGo (broken : Chan → Bool) (message : WireMsg) (document_id : String)
    (exclude : Option String) :
    List (String × Chan) → ConnState → BroadcastResult
  | [], st => ⟨st, [], false⟩
  | (user_id, ws) :: rest, st =>
    if excludedBy exclude user_id then
      broadcastGo broken message document_id exclude rest st
    else if broken ws then
      ⟨disconnect st document_id user_id, [], true⟩
    else
      let r := broadcastGo broken message document_id exclude rest st
      ⟨r.state, (user_id, message) :: r.delivered, r.raised⟩

/-- Model of `ConnectionManager.broadcast` (`server.py` lines 80-89). -/
def broadcast (broken : Chan → Bool) (st : ConnState) (message : WireMsg)
    (document_id : String) (exclude_user : Option String) : BroadcastResult :=
  match lookupKey st.active_connections document_id with
  | none => ⟨st, [], false⟩
  | some room => broadcastGo broken message document_id exclude_user room st

/-- Model of `ConnectionManager.broadcast_presence` (`server.py` lines 91-97):
build the presence event from the current `user_info` values (captured
before the sends start), then broadcast it with no excluded user. -/
def broadcast_presence (broken : Chan → Bool) (st : ConnState)
    (document_id : String) : BroadcastResult :=
  match lookupKey st.user_info document_id with
  | none => ⟨st, [], false⟩
  | some infos =>
    broadcast broken st (WireMsg.presence (infos.map (fun p => p.2))) document_id none

/-- The registry mutation of `ConnectionManager.connect` (`server.py`
lines 46-58): create the room in both registries if absent, then
overwrite both entries for the user. -/
def connectState (st : ConnState) (websocket : Chan)
    (document_id user_id user_name now : String) : ConnState :=
  let st1 :=
    if containsKey st.active_connections document_id then st
    else { active_connections := st.active_connections ++ [(document_id, [])]
           user_info := st.user_info ++ [(document_id, [])] }
  { active_connections := setInner st1.active_connections document_id user_id websocket
    user_info := setInner st1.user_info document_id user_id
      ⟨user_id, user_name, now⟩ }

/-- Model of `ConnectionManager.connect` (`server.py` lines 46-61): accept, apply
the registry mutation, then broadcast a fresh presence snapshot to the
whole room (line 61). -/
def connect (broken : Chan → Bool) (st : ConnState) (websocket : Chan)
    (document_id user_id user_name now : String) : BroadcastResult :=
  broadcast_presence broken
    (connectState st websocket document_id user_id user_name now) document_id

end ConnectionManager

/-! Recogniser for the payloads accepted by `json.loads` (`server.py`
line 313 parses every received frame; a payload it rejects raises
`json.JSONDecodeError`, which the endpoint's outer `except Exception`
turns into `close(code=1011, reason="Internal error")`).  This models the
acceptance of CPython's strict JSON decoder: values are objects, arrays,
strings, numbers, `true`/`false`/`null` and the `NaN`/`Infinity`
extensions, with JSON whitespace around tokens. -/

/-- JSON whitespace (space, tab, newline, carriage return). -/
def isJsonWs (c : Char) : Bool :=
  c == ' ' || c == '\t' || c == '\n' || c == '\r'

/-- Drop leading JSON whitespace. -/
def skipWs : List Char → List Char
  | [] => []
  | c :: cs => if isJsonWs c then skipWs cs else c :: cs

/-- Hexadecimal digit, as allowed in a `\uXXXX` escape. -/
def isHexDigit (c : Char) : Bool :=
  c.isDigit || (97 ≤ c.toNat && c.toNat ≤ 102) || (65 ≤ c.toNat && c.toNat ≤ 70)

/-- Consume the rest of a JSON string (the opening quote already read):
plain characters above U+001F, the eight single-character escapes, and
`\uXXXX`.  Returns the input after the closing quote. -/
def jsonStringRest : List Char → Option (List Char)
  | [] => none
  | c :: cs =>
    if c == '"' then some cs
    else if c == '\\' then
      match cs with
      | [] => none
      | e :: cs2 =>
        if e == '"' || e == '\\' || e == '/' || e == 'b' || e == 'f' ||
            e == 'n' || e == 'r' || e == 't' then
          jsonStringRest cs2
        else if e == 'u' then
          match cs2 with
          | h1 :: h2 :: h3 :: h4 :: cs3 =>
            if isHexDigit h1 && isHexDigit h2 && isHexDigit h3 && isHexDigit h4 then
              jsonStringRest cs3
            else none
          | _ => none
        else none
    else if c.toNat < 32 then none
    else jsonStringRest cs

/-- Drop a (possibly empty) run of decimal digits. -/
def dropDigits : List Char → List Char
  | [] => []
  | c :: cs => if c.isDigit then dropDigits cs else c :: cs

/-- Consume the integer part of a JSON number: `0` or a nonzero digit
followed by digits. -/
def jsonIntRest : List Char → Option (List Char)
  | [] => none
  | c :: cs =>
    if c == '0' then some cs
    else if c.isDigit then some (dropDigits cs)
    else none

/-- Consume the optional fraction and exponent of a JSON number. -/
def jsonAfterInt (l : List Char) : Option (List Char) :=
  let l1opt : Option (List Char) :=
    match l with
    | '.' :: cs =>
      match cs with
      | c :: cs2 => if c.isDigit then some (dropDigits cs2) else none
      | [] => none
    | _ => some l
  match l1opt with
  | none => none
  | some l1 =>
    match l1 with
    | c :: cs =>
      if c == 'e' || c == 'E' then
        match cs with
        | s :: cs2 =>
          if s == '+' || s == '-' then
            match cs2 with
            | d :: cs3 => if d.isDigit then some (dropDigits cs3) else none
            | [] => none
          else if s.isDigit then some (dropDigits cs)
          else none
        | [] => none
      else some l1
    | [] => some l1

mutual

/-- Consume one JSON value (after skipping leading whitespace); the fuel
bounds nesting and element count. -/
def jsonValue : Nat → List Char → Option (List Char)
  | 0, _ => none
  | Nat.succ fuel, l =>
    match skipWs l with
    | [] => none
    | c :: cs =>
      if c == '"' then jsonStringRest cs
      else if c == '[' then
        match skipWs cs with
        | ']' :: rest => some rest
        | l2 => jsonArrayRest fuel l2
      else if c == '{' then
        match skipWs cs with
        | '}' :: rest => some rest
        | l2 => jsonObjectRest fuel l2
      else if c == 't' then
        match cs with
        | 'r' :: 'u' :: 'e' :: rest => some rest
        | _ => none
      else if c == 'f' then
        match cs with
        | 'a' :: 'l' :: 's' :: 'e' :: rest => some rest
        | _ => none
      else if c == 'n' then
        match cs with
        | 'u' :: 'l' :: 'l' :: rest => some rest
        | _ => none
      else if c == 'N' then
        match cs with
        | 'a' :: 'N' :: rest => some rest
        | _ => none
      else if c == 'I' then
        match cs with
        | 'n' :: 'f' :: 'i' :: 'n' :: 'i' :: 't' :: 'y' :: rest => some rest
        | _ => none
      else if c == '-' then
        match cs with
        | 'I' :: 'n' :: 'f' :: 'i' :: 'n' :: 'i' :: 't' :: 'y' :: rest => some rest
        | _ => (jsonIntRest cs).bind jsonAfterInt
      else if c.isDigit then (jsonIntRest (c :: cs)).bind jsonAfterInt
      else none

/-- Consume the elements of a non-empty JSON array (after the `[`). -/
def jsonArrayRest : Nat → List Char → Option (List Char)
  | 0, _ => none
  | Nat.succ fuel, l =>
    match jsonValue fuel l with
    | none => none
    | some rest =>
      match skipWs rest with
      | ',' :: rest2 => jsonArrayRest fuel rest2
      | ']' :: rest2 => some rest2
      | _ => none

/-- Consume the members of a non-empty JSON object (after the `{`). -/
def jsonObjectRest : Nat → List Char → Option (List Char)
  | 0, _ => none
  | Nat.succ fuel, l =>
    match skipWs l with
    | '"' :: cs =>
      match jsonStringRest cs with
      | none => none
      | some rest =>
        match skipWs rest with
        | ':' :: rest2 =>
          match jsonValue fuel rest2 with
          | none => none
          | some rest3 =>
            match skipWs rest3 with
            | ',' :: rest4 => jsonObjectRest fuel rest4
            | '}' :: rest4 => some rest4
            | _ => none
        | _ => none
    | _ => none

end

/-- Whether `json.loads` accepts the payload: one JSON document with
nothing but whitespace after it. -/
def jsonParses (s : String) : Bool :=
  match jsonValue (s.length + 2) s.toList with
  | none => false
  | some rest => (skipWs rest).isEmpty

/-- The user ids currently recorded for a room, in insertion order. -/
def memberKeys (st : ConnState) (document_id : String) : List String :=
  ((lookupKey st.user_info document_id).getD []).map (fun p => p.1)

/-- The user ids currently in a room's connection map, in insertion order. -/
def activeKeys (st : ConnState) (document_id : String) : List String :=
  ((lookupKey st.active_connections document_id).getD []).map (fun p => p.1)

/-- The presence snapshot of a room: the `user_info` values in insertion
order (`list(self.user_info[document_id].values())`), empty if the room
does not exist. -/
def Snapshot (st : ConnState) (document_id : String) : List UserInfo :=
  ((lookupKey st.user_info document_id).getD []).map (fun p => p.2)

/-- Python truthiness of an optional string (`payload.get(...)` is `None`
when absent; `None` and `""` are falsy). -/
def pyTruthy : Option String → Bool
  | none => false
  | some s => !(s == "")

/-- The fields `websocket_endpoint` reads from a decoded JWT payload. -/
structure JwtPayload where
  user_id : Option String
  username : Option String
deriving DecidableEq

/-- The external collaborators of the endpoint: `decode_jwt_token`
(returns the payload, or raises on an invalid/expired token — modelled as
`none`) and the document store (`db.documents.find_one`, exposing each
document's `collaborators` list). -/
structure Env where
  decodeToken : String → Option JwtPayload
  documents : String → Option (List String)

/-- How an admission attempt ends: the stream is closed with a
code/reason, or the user enters the receive loop. -/
inductive AdmitOutcome where
  | closed (code : Nat) (reason : String)
  | connected (user_id username : String)
deriving DecidableEq

/-- Result of running `websocket_endpoint` up to the receive loop. -/
structure AdmitResult where
  state : ConnState
  delivered : List (String × WireMsg)
  outcome : AdmitOutcome
deriving DecidableEq

/-- Model of `websocket_endpoint` (`server.py` lines 285-324) up to entering the
receive loop.  A missing/empty token closes with (1008, "Token required").
`decode_jwt_token` raising (invalid or expired token) is an exception that
reaches the outer `except Exception`, closing with (1011, "Internal
error").  A decodable payload without truthy `user_id`/`username` closes
with (1008, "Invalid token").  A missing document or a non-collaborator
closes with (1008, "Access denied").  Otherwise `manager.connect` runs;
if its presence broadcast raises, the exception reaches the outer handler
and the stream is closed with (1011, "Internal error"). -/
def websocket_endpoint (env : Env) (broken : Chan → Bool) (st : ConnState)
    (websocket : Chan) (document_id : String) (token : Option String)
    (now : String) : AdmitResult :=
  if !(pyTruthy token) then ⟨st, [], .closed 1008 "Token required"⟩
  else
    match env.decodeToken (token.getD "") with
    | none => ⟨st, [], .closed 1011 "Internal error"⟩
    | some payload =>
      if !(pyTruthy payload.user_id) || !(pyTruthy payload.username) then
        ⟨st, [], .closed 1008 "Invalid token"⟩
      else
        let user_id := payload.user_id.getD ""
        let username := payload.username.getD ""
        match env.documents document_id with
        | none => ⟨st, [], .closed 1008 "Access denied"⟩
        | some collaborators =>
          if !(collaborators.contains user_id) then
            ⟨st, [], .closed 1008 "Access denied"⟩
          else
            let r := ConnectionManager.connect broken st websocket document_id
              user_id username now
            if r.raised then ⟨r.state, r.delivered, .closed 1011 "Internal error"⟩
            else ⟨r.state, r.delivered, .connected user_id username⟩

/-- One event of the receive loop: a text frame arrived, or
`receive_text` raised `WebSocketDisconnect`. -/
inductive RecvEvent where
  | msg (data : String)
  | disconnected
deriving DecidableEq

/-- How one iteration of the receive loop ends: the loop continues (the
connection stays Active), the `WebSocketDisconnect` handler ran and the
handler returned, or an exception reached the outer handler and the
stream was closed with (1011, "Internal error"). -/
inductive StepOutcome where
  | looping
  | closedGraceful
  | closedInternal
deriving DecidableEq

/-- Result of processing one receive-loop event. -/
structure StepResult where
  state : ConnState
  delivered : List (String × WireMsg)
  outcome : StepOutcome
deriving DecidableEq

/-- One iteration of the receive loop of `websocket_endpoint`
(`server.py` lines 310-324).  A received frame is first parsed with
`json.loads` (line 313); a payload it rejects raises, skipping the
broadcast and reaching the outer handler — the registry is NOT cleaned
up on that path.  A parsed frame is relayed raw with the sender excluded;
if that broadcast raises (`RuntimeError` from the failed-send cleanup),
the exception also reaches the outer handler without registry cleanup of
the sender.  `WebSocketDisconnect` removes the member and broadcasts a
fresh presence snapshot to the remaining members. -/
def handle_event (broken : Chan → Bool) (st : ConnState)
    (document_id user_id : String) : RecvEvent → StepResult
  | .msg data =>
    if jsonParses data then
      let r := ConnectionManager.broadcast broken st (WireMsg.text data)
        document_id (some user_id)
      if r.raised then ⟨r.state, r.delivered, .closedInternal⟩
      else ⟨r.state, r.delivered, .looping⟩
    else ⟨st, [], .closedInternal⟩
  | .disconnected =>
    let st1 := ConnectionManager.disconnect st document_id user_id
    let r := ConnectionManager.broadcast_presence broken st1 document_id
    if r.raised then ⟨r.state, r.delivered, .closedInternal⟩
    else ⟨r.state, r.delivered, .closedGraceful⟩

/-- The environment in which every send succeeds. -/
def noBroken : Chan → Bool := fun _ => false

/-! Basic lemmas about the dictionary operations. -/

theorem lookupKey_eq_none {l : List (String × α)} {k : String} :
    lookupKey l k = none ↔ containsKey l k = false := by
  induction l with
  | nil => simp [lookupKey, containsKey]
  | cons p ps ih =>
    by_cases h : p.1 = k <;> simp [lookupKey, containsKey, h, beq_iff_eq] at ih ⊢
    exact ih

theorem containsKey_cons {p : String × α} {ps : List (String × α)} {k : String} :
    containsKey (p :: ps) k = ((p.1 == k) || containsKey ps k) := rfl

theorem lookupKey_append_right {l : List (String × α)} {k : String} {v : α}
    (h : containsKey l k = false) : lookupKey (l ++ [(k, v)]) k = some v := by
  induction l with
  | nil => simp [lookupKey]
  | cons p ps ih =>
    rw [containsKey_cons, Bool.or_eq_false_iff] at h
    rw [List.cons_append, lookupKey, if_neg (by simp [h.1]), ih h.2]

theorem fst_replace (k : String) (v : α) (p : String × α) :
    (if p.1 == k then (k, v) else p).1 = p.1 := by
  by_cases hp : p.1 = k <;> simp [hp]

theorem map_fst_replace (l : List (String × α)) (k : String) (v : α) :
    (l.map (fun p => if p.1 == k then (k, v) else p)).map (fun p => p.1) =
      l.map (fun p => p.1) := by
  rw [List.map_map]
  exact List.map_congr_left (fun p _ => fst_replace k v p)

theorem setKey_keys (l : List (String × α)) (k : String) (v : α) :
    (setKey l k v).map (fun p => p.1) =
      if containsKey l k then l.map (fun p => p.1)
      else l.map (fun p => p.1) ++ [k] := by
  by_cases h : containsKey l k
  · rw [setKey, if_pos h, map_fst_replace, if_pos h]
  · simp [setKey, h]

theorem lookupKey_replace (l : List (String × α)) (k : String) (v : α)
    (h : containsKey l k = true) :
    lookupKey (l.map (fun p => if p.1 == k then (k, v) else p)) k = some v := by
  induction l with
  | nil => simp [containsKey] at h
  | cons p ps ih =>
    by_cases hp : p.1 = k
    · simp [lookupKey, hp]
    · have hpk : (p.1 == k) = false := by simp [hp]
      rw [containsKey_cons, hpk, Bool.false_or] at h
      simp only [List.map_cons, lookupKey, hpk, Bool.false_eq_true, if_false]
      exact ih h

theorem lookupKey_setKey (l : List (String × α)) (k : String) (v : α) :
    lookupKey (setKey l k v) k = some v := by
  by_cases h : containsKey l k
  · simp only [setKey, if_pos h]
    exact lookupKey_replace l k v h
  · simp only [setKey, if_neg h]
    exact lookupKey_append_right (by simpa using h)

theorem setKey_eq_append {l : List (String × α)} {k : String} {v : α}
    (h : containsKey l k = false) : setKey l k v = l ++ [(k, v)] := by
  simp [setKey, h]

theorem setKey_ne_nil (l : List (String × α)) (k : String) (v : α) :
    setKey l k v ≠ [] := by
  by_cases h : containsKey l k <;> simp [setKey, h]
  intro hnil
  rw [hnil] at h
  simp [containsKey] at h

theorem eraseKey_keys (l : List (String × α)) (k : String) :
    (eraseKey l k).map (fun p => p.1) =
      (l.map (fun p => p.1)).filter (fun u => u != k) := by
  induction l with
  | nil => simp [eraseKey]
  | cons p ps ih =>
    by_cases h : p.1 = k <;> simp [eraseKey, h, bne, beq_iff_eq] at ih ⊢ <;>
      simpa [eraseKey] using ih

theorem lookup_setInner (outer : List (String × List (String × α)))
    (doc uid : String) (v : α) :
    lookupKey (setInner outer doc uid v) doc =
      (lookupKey outer doc).map (fun r => setKey r uid v) := by
  induction outer with
  | nil => simp [setInner, lookupKey]
  | cons p ps ih =>
    by_cases h : p.1 = doc <;>
      simp [setInner, lookupKey, h, beq_iff_eq] at ih ⊢ <;> simpa [setInner] using ih

theorem lookup_eraseInner (outer : List (String × List (String × α)))
    (doc uid : String) :
    lookupKey (eraseInner outer doc uid) doc =
      (lookupKey outer doc).map (fun r => eraseKey r uid) := by
  induction outer with
  | nil => simp [eraseInner, lookupKey]
  | cons p ps ih =>
    by_cases h : p.1 = doc <;>
      simp [eraseInner, lookupKey, h, beq_iff_eq] at ih ⊢ <;> simpa [eraseInner] using ih

theorem setInner_keys (outer : List (String × List (String × α)))
    (doc uid : String) (v : α) :
    (setInner outer doc uid v).map (fun p => p.1) = outer.map (fun p => p.1) := by
  induction outer with
  | nil => simp [setInner]
  | cons p ps ih =>
    by_cases h : p.1 = doc <;> simp [setInner, h, beq_iff_eq] at ih ⊢ <;>
      simpa [setInner] using ih

theorem eraseInner_keys (outer : List (String × List (String × α)))
    (doc uid : String) :
    (eraseInner outer doc uid).map (fun p => p.1) = outer.map (fun p => p.1) := by
  induction outer with
  | nil => simp [eraseInner]
  | cons p ps ih =>
    by_cases h : p.1 = doc <;> simp [eraseInner, h, beq_iff_eq] at ih ⊢ <;>
      simpa [eraseInner] using ih

/-! Characterisation of `broadcast` when no send fails, and the shape of
its state when sends may fail. -/

namespace ConnectionManager

theorem broadcastGo_noBroken (message : WireMsg) (document_id : String)
    (exclude : Option String) (l : List (String × Chan)) (st : ConnState) :
    broadcastGo noBroken message document_id exclude l st =
      ⟨st, (l.filter (fun p => !(excludedBy exclude p.1))).map
          (fun p => (p.1, message)), false⟩ := by
  induction l with
  | nil => simp [broadcastGo]
  | cons p ps ih =>
    by_cases h : excludedBy exclude p.1 = true <;>
      simp [broadcastGo, noBroken, h, ih]

theorem broadcast_noBroken (st : ConnState) (message : WireMsg)
    (document_id : String) (exclude_user : Option String) :
    broadcast noBroken st message document_id exclude_user =
      ⟨st, (((lookupKey st.active_connections document_id).getD []).filter
          (fun p => !(excludedBy exclude_user p.1))).map
          (fun p => (p.1, message)), false⟩ := by
  unfold broadcast
  cases h : lookupKey st.active_connections document_id with
  | none => simp
  | some room => simp [broadcastGo_noBroken]

theorem broadcastGo_state_cases (broken : Chan → Bool) (message : WireMsg)
    (document_id : String) (exclude : Option String)
    (l : List (String × Chan)) (st : ConnState) :
    (broadcastGo broken message document_id exclude l st).state = st ∨
      ∃ u, (broadcastGo broken message document_id exclude l st).state =
        disconnect st document_id u := by
  induction l with
  | nil => left; simp [broadcastGo]
  | cons p ps ih =>
    by_cases h1 : excludedBy exclude p.1 = true
    · simpa [broadcastGo, h1] using ih
    · by_cases h2 : broken p.2 = true
      · right; exact ⟨p.1, by simp [broadcastGo, h1, h2]⟩
      · simpa [broadcastGo, h1, h2] using ih

theorem broadcast_state_cases (broken : Chan → Bool) (st : ConnState)
    (message : WireMsg) (document_id : String) (exclude_user : Option String) :
    (broadcast broken st message document_id exclude_user).state = st ∨
      ∃ u, (broadcast broken st message document_id exclude_user).state =
        disconnect st document_id u := by
  unfold broadcast
  cases lookupKey st.active_connections document_id with
  | none => left; rfl
  | some room => exact broadcastGo_state_cases broken message document_id exclude_user room st

theorem broadcast_presence_state_cases (broken : Chan → Bool) (st : ConnState)
    (document_id : String) :
    (broadcast_presence broken st document_id).state = st ∨
      ∃ u, (broadcast_presence broken st document_id).state =
        disconnect st document_id u := by
  unfold broadcast_presence
  cases lookupKey st.user_info document_id with
  | none => left; rfl
  | some infos => exact broadcast_state_cases broken st _ document_id none

end ConnectionManager

/-! Key-structure invariants of the two registries. -/

/-- Insert a user id into a room's key list the way a Python dict
assignment does: keep the list if the key is present, append otherwise. -/
def keyInsert (keys : List String) (k : String) : List String :=
  if keys.any (fun u => u == k) then keys else keys ++ [k]

/-- The key structure of a registry: document keys paired with their
rooms' user-id keys, in insertion order. -/
def keysOf (outer : List (String × List (String × α))) : List (String × List String) :=
  outer.map (fun p => (p.1, p.2.map (fun q => q.1)))

/-- Claim C10's invariant: both registries have exactly the same document
keys, and per document exactly the same user-id keys. -/
def aligned (st : ConnState) : Prop :=
  keysOf st.active_connections = keysOf st.user_info

instance (st : ConnState) : Decidable (aligned st) :=
  inferInstanceAs (Decidable (keysOf st.active_connections = keysOf st.user_info))

theorem containsKey_iff_mem {l : List (String × α)} {k : String} :
    containsKey l k = true ↔ k ∈ l.map (fun p => p.1) := by
  simp only [containsKey, List.any_eq_true, List.mem_map, beq_iff_eq]

theorem any_map_comp (f : α → β) (p : β → Bool) (l : List α) :
    (l.map f).any p = l.any (fun a => p (f a)) := by
  induction l with
  | nil => rfl
  | cons a as ih => simp [List.any_cons, ih]

theorem containsKey_keysOf (outer : List (String × List (String × α))) (k : String) :
    containsKey (keysOf outer) k = containsKey outer k := by
  unfold containsKey keysOf
  rw [any_map_comp]

theorem keysOf_map_fst (outer : List (String × List (String × α))) :
    (keysOf outer).map (fun p => p.1) = outer.map (fun p => p.1) := by
  simp [keysOf, List.map_map]

theorem setKey_keyInsert (l : List (String × α)) (k : String) (v : α) :
    (setKey l k v).map (fun p => p.1) = keyInsert (l.map (fun p => p.1)) k := by
  rw [setKey_keys, keyInsert]
  have h : ((l.map (fun p => p.1)).any (fun u => u == k)) = containsKey l k := by
    rw [any_map_comp]
    rfl
  rw [h]

theorem keysOf_setInner (outer : List (String × List (String × α)))
    (doc uid : String) (v : α) :
    keysOf (setInner outer doc uid v) =
      (keysOf outer).map
        (fun p => if p.1 == doc then (p.1, keyInsert p.2 uid) else p) := by
  induction outer with
  | nil => rfl
  | cons p ps ih =>
    by_cases h : p.1 = doc
    · simp [keysOf, setInner, h, setKey_keyInsert] at ih ⊢
      simpa [keysOf, setInner] using ih
    · simp [keysOf, setInner, h] at ih ⊢
      simpa [keysOf, setInner] using ih

theorem keysOf_eraseInner (outer : List (String × List (String × α)))
    (doc uid : String) :
    keysOf (eraseInner outer doc uid) =
      (keysOf outer).map
        (fun p => if p.1 == doc then (p.1, p.2.filter (fun u => u != uid)) else p) := by
  induction outer with
  | nil => rfl
  | cons p ps ih =>
    by_cases h : p.1 = doc
    · simp [keysOf, eraseInner, h, eraseKey_keys] at ih ⊢
      simpa [keysOf, eraseInner] using ih
    · simp [keysOf, eraseInner, h] at ih ⊢
      simpa [keysOf, eraseInner] using ih

theorem keysOf_dropEmpty (outer : List (String × List (String × α)))
    (doc : String) :
    keysOf (dropEmpty outer doc) =
      (keysOf outer).filter (fun p => !(p.1 == doc && p.2.isEmpty)) := by
  unfold keysOf dropEmpty
  rw [List.filter_map]
  congr 1
  apply List.filter_congr
  intro p _
  have hemp : (p.2.map (fun q => q.1)).isEmpty = p.2.isEmpty := by
    cases p.2 <;> rfl
  simp [Function.comp, hemp]

theorem keysOf_append_room (outer : List (String × List (String × α)))
    (doc : String) :
    keysOf (outer ++ [(doc, [])]) = keysOf outer ++ [(doc, [])] := by
  simp [keysOf]

namespace ConnectionManager

theorem aligned_disconnect {st : ConnState} (doc uid : String)
    (h : aligned st) : aligned (disconnect st doc uid) := by
  unfold aligned disconnect
  simp only [keysOf_dropEmpty, keysOf_eraseInner]
  rw [aligned] at h
  rw [h]

theorem aligned_connectState {st : ConnState} (ws : Chan)
    (doc uid uname now : String) (h : aligned st) :
    aligned (connectState st ws doc uid uname now) := by
  unfold aligned connectState
  by_cases hc : containsKey st.active_connections doc
  · simp only [hc, if_pos, keysOf_setInner]
    rw [aligned] at h
    rw [h]
  · simp only [hc, Bool.false_eq_true, if_false, keysOf_setInner, keysOf_append_room]
    rw [aligned] at h
    rw [h]

theorem aligned_broadcast {st : ConnState} (broken : Chan → Bool)
    (message : WireMsg) (doc : String) (ex : Option String) (h : aligned st) :
    aligned (broadcast broken st message doc ex).state := by
  rcases broadcast_state_cases broken st message doc ex with h0 | ⟨u, hu⟩
  · rw [h0]; exact h
  · rw [hu]; exact aligned_disconnect doc u h

theorem aligned_broadcast_presence {st : ConnState} (broken : Chan → Bool)
    (doc : String) (h : aligned st) :
    aligned (broadcast_presence broken st doc).state := by
  rcases broadcast_presence_state_cases broken st doc with h0 | ⟨u, hu⟩
  · rw [h0]; exact h
  · rw [hu]; exact aligned_disconnect doc u h

theorem aligned_connect {st : ConnState} (broken : Chan → Bool) (ws : Chan)
    (doc uid uname now : String) (h : aligned st) :
    aligned (connect broken st ws doc uid uname now).state :=
  aligned_broadcast_presence broken doc (aligned_connectState ws doc uid uname now h)

end ConnectionManager

/-! Claim C7's invariant: no registered room is empty. -/

/-- No room recorded in either registry is empty. -/
def noEmptyRooms (st : ConnState) : Prop :=
  (∀ p ∈ st.active_connections, ¬ p.2 = []) ∧ (∀ p ∈ st.user_info, ¬ p.2 = [])

instance (st : ConnState) : Decidable (noEmptyRooms st) :=
  inferInstanceAs (Decidable (_ ∧ _))

theorem noEmpty_disconnect_side {outer : List (String × List (String × α))}
    (doc uid : String) (h : ∀ p ∈ outer, ¬ p.2 = []) :
    ∀ p ∈ dropEmpty (eraseInner outer doc uid) doc, ¬ p.2 = [] := by
  intro p hp
  rw [dropEmpty, List.mem_filter] at hp
  obtain ⟨hp1, hp2⟩ := hp
  rw [eraseInner, List.mem_map] at hp1
  obtain ⟨q, hq, hpq⟩ := hp1
  by_cases hqd : q.1 = doc
  · subst hpq
    simp only [hqd, beq_self_eq_true, if_true] at hp2 ⊢
    intro hnil
    simp [hnil, hqd] at hp2
  · subst hpq
    simp only [show (q.1 == doc) = false by simp [hqd], Bool.false_eq_true,
      if_false] at hp2 ⊢
    exact h q hq

theorem noEmpty_setInner_side {outer : List (String × List (String × α))}
    (doc uid : String) (v : α)
    (h : ∀ p ∈ outer, ¬ p.1 = doc → ¬ p.2 = []) :
    ∀ p ∈ setInner outer doc uid v, ¬ p.2 = [] := by
  intro p hp
  rw [setInner, List.mem_map] at hp
  obtain ⟨q, hq, hpq⟩ := hp
  by_cases hqd : q.1 = doc
  · subst hpq
    simp only [hqd, beq_self_eq_true, if_true]
    exact setKey_ne_nil _ _ _
  · subst hpq
    simp only [show (q.1 == doc) = false by simp [hqd], Bool.false_eq_true, if_false]
    exact h q hq hqd

namespace ConnectionManager

theorem noEmptyRooms_disconnect {st : ConnState} (doc uid : String)
    (h : noEmptyRooms st) : noEmptyRooms (disconnect st doc uid) :=
  ⟨noEmpty_disconnect_side doc uid h.1, noEmpty_disconnect_side doc uid h.2⟩

theorem noEmptyRooms_connectState {st : ConnState} (ws : Chan)
    (doc uid uname now : String) (h : noEmptyRooms st) :
    noEmptyRooms (connectState st ws doc uid uname now) := by
  unfold connectState
  by_cases hc : containsKey st.active_connections doc
  · simp only [hc, if_true]
    exact ⟨noEmpty_setInner_side doc uid ws (fun p hp _ => h.1 p hp),
      noEmpty_setInner_side doc uid _ (fun p hp _ => h.2 p hp)⟩
  · simp only [hc, Bool.false_eq_true, if_false]
    constructor
    · apply noEmpty_setInner_side
      intro p hp hpd
      rcases List.mem_append.mp hp with hp | hp
      · exact h.1 p hp
      · simp at hp
        exact absurd (by rw [hp]) hpd
    · apply noEmpty_setInner_side
      intro p hp hpd
      rcases List.mem_append.mp hp with hp | hp
      · exact h.2 p hp
      · simp at hp
        exact absurd (by rw [hp]) hpd

theorem noEmptyRooms_broadcast {st : ConnState} (broken : Chan → Bool)
    (message : WireMsg) (doc : String) (ex : Option String) (h : noEmptyRooms st) :
    noEmptyRooms (broadcast broken st message doc ex).state := by
  rcases broadcast_state_cases broken st message doc ex with h0 | ⟨u, hu⟩
  · rw [h0]; exact h
  · rw [hu]; exact noEmptyRooms_disconnect doc u h

theorem noEmptyRooms_broadcast_presence {st : ConnState} (broken : Chan → Bool)
    (doc : String) (h : noEmptyRooms st) :
    noEmptyRooms (broadcast_presence broken st doc).state := by
  rcases broadcast_presence_state_cases broken st doc with h0 | ⟨u, hu⟩
  · rw [h0]; exact h
  · rw [hu]; exact noEmptyRooms_disconnect doc u h

theorem noEmptyRooms_connect {st : ConnState} (broken : Chan → Bool) (ws : Chan)
    (doc uid uname now : String) (h : noEmptyRooms st) :
    noEmptyRooms (connect broken st ws doc uid uname now).state :=
  noEmptyRooms_broadcast_presence broken doc
    (noEmptyRooms_connectState ws doc uid uname now h)

end ConnectionManager

/-! Well-formedness: no duplicate keys, the automatic property of Python
dicts that makes the association-list model faithful. -/

/-- No duplicate document keys in either registry, and no duplicate user
keys inside any room. -/
def wfKeys (st : ConnState) : Prop :=
  (st.active_connections.map (fun p => p.1)).Nodup ∧
  (st.user_info.map (fun p => p.1)).Nodup ∧
  (∀ p ∈ st.active_connections, (p.2.map (fun q => q.1)).Nodup) ∧
  (∀ p ∈ st.user_info, (p.2.map (fun q => q.1)).Nodup)

instance (st : ConnState) : Decidable (wfKeys st) :=
  inferInstanceAs (Decidable (_ ∧ _ ∧ _ ∧ _))

theorem nodup_setKey_keys {l : List (String × α)} (k : String) (v : α)
    (h : (l.map (fun p => p.1)).Nodup) :
    ((setKey l k v).map (fun p => p.1)).Nodup := by
  rw [setKey_keys]
  by_cases hc : containsKey l k
  · simpa [hc] using h
  · simp only [hc, Bool.false_eq_true, if_false]
    have hk : k ∉ l.map (fun p => p.1) := fun hm => hc (containsKey_iff_mem.mpr hm)
    simp [List.nodup_append, h, hk]

theorem nodup_eraseKey_keys {l : List (String × α)} (k : String)
    (h : (l.map (fun p => p.1)).Nodup) :
    ((eraseKey l k).map (fun p => p.1)).Nodup := by
  rw [eraseKey_keys]
  exact h.filter _

theorem nodup_outer_dropEmpty {outer : List (String × List (String × α))}
    (doc : String) (h : (outer.map (fun p => p.1)).Nodup) :
    ((dropEmpty outer doc).map (fun p => p.1)).Nodup :=
  h.sublist (List.Sublist.map _ (List.filter_sublist _))

theorem inner_mem_setInner {outer : List (String × List (String × α))}
    {doc uid : String} {v : α} {p : String × List (String × α)}
    (hp : p ∈ setInner outer doc uid v) :
    ∃ q ∈ outer, p = q ∨ p = (q.1, setKey q.2 uid v) := by
  rw [setInner, List.mem_map] at hp
  obtain ⟨q, hq, hpq⟩ := hp
  refine ⟨q, hq, ?_⟩
  by_cases hqd : q.1 = doc
  · right
    rw [← hpq]
    simp [hqd]
  · left
    rw [← hpq]
    simp [show (q.1 == doc) = false by simp [hqd]]

theorem inner_mem_eraseInner {outer : List (String × List (String × α))}
    {doc uid : String} {p : String × List (String × α)}
    (hp : p ∈ eraseInner outer doc uid) :
    ∃ q ∈ outer, p = q ∨ p = (q.1, eraseKey q.2 uid) := by
  rw [eraseInner, List.mem_map] at hp
  obtain ⟨q, hq, hpq⟩ := hp
  refine ⟨q, hq, ?_⟩
  by_cases hqd : q.1 = doc
  · right
    rw [← hpq]
    simp [hqd]
  · left
    rw [← hpq]
    simp [show (q.1 == doc) = false by simp [hqd]]

theorem mem_dropEmpty {outer : List (String × List (String × α))}
    {doc : String} {p : String × List (String × α)}
    (hp : p ∈ dropEmpty outer doc) : p ∈ outer :=
  (List.mem_filter.mp hp).1

namespace ConnectionManager

theorem wfKeys_disconnect {st : ConnState} (doc uid : String)
    (h : wfKeys st) : wfKeys (disconnect st doc uid) := by
  obtain ⟨h1, h2, h3, h4⟩ := h
  refine ⟨?_, ?_, ?_, ?_⟩
  · exact nodup_outer_dropEmpty doc (by simpa [eraseInner_keys] using h1)
  · exact nodup_outer_dropEmpty doc (by simpa [eraseInner_keys] using h2)
  · intro p hp
    obtain ⟨q, hq, hc⟩ := inner_mem_eraseInner (mem_dropEmpty hp)
    rcases hc with h | h
    · rw [h]; exact h3 q hq
    · rw [h]; exact nodup_eraseKey_keys uid (h3 q hq)
  · intro p hp
    obtain ⟨q, hq, hc⟩ := inner_mem_eraseInner (mem_dropEmpty hp)
    rcases hc with h | h
    · rw [h]; exact h4 q hq
    · rw [h]; exact nodup_eraseKey_keys uid (h4 q hq)

theorem wfKeys_connectState {st : ConnState} (ws : Chan)
    (doc uid uname now : String) (hal : aligned st) (h : wfKeys st) :
    wfKeys (connectState st ws doc uid uname now) := by
  obtain ⟨h1, h2, h3, h4⟩ := h
  have hfst : st.active_connections.map (fun p => p.1) =
      st.user_info.map (fun p => p.1) := by
    have := congrArg (List.map (fun p => p.1)) hal
    simpa [keysOf_map_fst] using this
  unfold connectState
  by_cases hc : containsKey st.active_connections doc
  · simp only [hc, if_true]
    refine ⟨by simpa [setInner_keys] using h1, by simpa [setInner_keys] using h2,
      ?_, ?_⟩
    · intro p hp
      obtain ⟨q, hq, hcase⟩ := inner_mem_setInner hp
      rcases hcase with hpq | hpq
      · rw [hpq]; exact h3 q hq
      · rw [hpq]; exact nodup_setKey_keys uid ws (h3 q hq)
    · intro p hp
      obtain ⟨q, hq, hcase⟩ := inner_mem_setInner hp
      rcases hcase with hpq | hpq
      · rw [hpq]; exact h4 q hq
      · rw [hpq]; exact nodup_setKey_keys uid _ (h4 q hq)
  · have hdocA : doc ∉ st.active_connections.map (fun p => p.1) :=
      fun hm => hc (containsKey_iff_mem.mpr hm)
    have hdocU : doc ∉ st.user_info.map (fun p => p.1) := by
      rw [← hfst]
      exact hdocA
    simp only [hc, Bool.false_eq_true, if_false]
    refine ⟨?_, ?_, ?_, ?_⟩
    · rw [setInner_keys]
      simp [List.nodup_append, h1, hdocA]
    · rw [setInner_keys]
      simp [List.nodup_append, h2, hdocU]
    · intro p hp
      obtain ⟨q, hq, hcase⟩ := inner_mem_setInner hp
      have hq2 : (q.2.map (fun v => v.1)).Nodup := by
        rcases List.mem_append.mp hq with hq | hq
        · exact h3 q hq
        · simp at hq
          rw [hq]
          exact List.nodup_nil
      rcases hcase with hpq | hpq
      · rw [hpq]; exact hq2
      · rw [hpq]; exact nodup_setKey_keys uid ws hq2
    · intro p hp
      obtain ⟨q, hq, hcase⟩ := inner_mem_setInner hp
      have hq2 : (q.2.map (fun v => v.1)).Nodup := by
        rcases List.mem_append.mp hq with hq | hq
        · exact h4 q hq
        · simp at hq
          rw [hq]
          exact List.nodup_nil
      rcases hcase with hpq | hpq
      · rw [hpq]; exact hq2
      · rw [hpq]; exact nodup_setKey_keys uid _ hq2

theorem wfKeys_broadcast {st : ConnState} (broken : Chan → Bool)
    (message : WireMsg) (doc : String) (ex : Option String) (h : wfKeys st) :
    wfKeys (broadcast broken st message doc ex).state := by
  rcases broadcast_state_cases broken st message doc ex with h0 | ⟨u, hu⟩
  · rw [h0]; exact h
  · rw [hu]; exact wfKeys_disconnect doc u h

theorem wfKeys_broadcast_presence {st : ConnState} (broken : Chan → Bool)
    (doc : String) (h : wfKeys st) :
    wfKeys (broadcast_presence broken st doc).state := by
  rcases broadcast_presence_state_cases broken st doc with h0 | ⟨u, hu⟩
  · rw [h0]; exact h
  · rw [hu]; exact wfKeys_disconnect doc u h

theorem wfKeys_connect {st : ConnState} (broken : Chan → Bool) (ws : Chan)
    (doc uid uname now : String) (hal : aligned st) (h : wfKeys st) :
    wfKeys (connect broken st ws doc uid uname now).state :=
  wfKeys_broadcast_presence broken doc (wfKeys_connectState ws doc uid uname now hal h)

end ConnectionManager

/-! Inside `user_info`, every record's `user_id` field equals its key
(`connect` stores `{"user_id": user_id, ...}` under key `user_id`). -/

/-- Each `user_info` record is stored under its own `user_id`. -/
def infoKeysMatch (st : ConnState) : Prop :=
  ∀ p ∈ st.user_info, ∀ q ∈ p.2, q.2.user_id = q.1

instance (st : ConnState) : Decidable (infoKeysMatch st) :=
  inferInstanceAs (Decidable (∀ p ∈ st.user_info, ∀ q ∈ p.2, q.2.user_id = q.1))

theorem lookupKey_mem {l : List (String × α)} {k : String} {v : α}
    (h : lookupKey l k = some v) : (k, v) ∈ l := by
  induction l with
  | nil => simp [lookupKey] at h
  | cons p ps ih =>
    rw [lookupKey] at h
    by_cases hp : p.1 = k
    · rw [if_pos (by simp [hp])] at h
      have hv : v = p.2 := by
        injection h with h
        exact h.symm
      have : p = (k, v) := by
        cases p
        simp_all
      rw [← this]
      exact List.mem_cons_self _ _
    · rw [if_neg (by simp [hp])] at h
      exact List.mem_cons_of_mem _ (ih h)

theorem eraseKey_subset {l : List (String × α)} {k : String} :
    ∀ q ∈ eraseKey l k, q ∈ l := fun _ hq => (List.mem_filter.mp hq).1

theorem infoKeysMatch_setKey {l : List (String × UserInfo)} (uid uname now : String)
    (h : ∀ q ∈ l, q.2.user_id = q.1) :
    ∀ q ∈ setKey l uid ⟨uid, uname, now⟩, q.2.user_id = q.1 := by
  intro q hq
  rw [setKey] at hq
  by_cases hc : containsKey l uid
  · rw [if_pos hc, List.mem_map] at hq
    obtain ⟨e, he, hqe⟩ := hq
    by_cases hek : e.1 = uid
    · rw [← hqe]
      simp [hek]
    · rw [← hqe]
      simp only [show (e.1 == uid) = false by simp [hek], Bool.false_eq_true, if_false]
      exact h e he
  · rw [if_neg hc, List.mem_append] at hq
    rcases hq with hq | hq
    · exact h q hq
    · simp at hq
      rw [hq]

namespace ConnectionManager

theorem infoKeysMatch_disconnect {st : ConnState} (doc uid : String)
    (h : infoKeysMatch st) : infoKeysMatch (disconnect st doc uid) := by
  intro p hp q hq
  obtain ⟨e, he, hcase⟩ := inner_mem_eraseInner (mem_dropEmpty hp)
  rcases hcase with hpe | hpe
  · rw [hpe] at hq
    exact h e he q hq
  · rw [hpe] at hq
    exact h e he q (eraseKey_subset q hq)

theorem infoKeysMatch_connectState {st : ConnState} (ws : Chan)
    (doc uid uname now : String) (h : infoKeysMatch st) :
    infoKeysMatch (connectState st ws doc uid uname now) := by
  unfold connectState
  by_cases hc : containsKey st.active_connections doc
  · simp only [hc, if_true]
    intro p hp q hq
    obtain ⟨e, he, hcase⟩ := inner_mem_setInner hp
    rcases hcase with hpe | hpe
    · rw [hpe] at hq
      exact h e he q hq
    · rw [hpe] at hq
      exact infoKeysMatch_setKey uid uname now (h e he) q hq
  · simp only [hc, Bool.false_eq_true, if_false]
    intro p hp q hq
    obtain ⟨e, he, hcase⟩ := inner_mem_setInner hp
    have he2 : ∀ r ∈ e.2, r.2.user_id = r.1 := by
      rcases List.mem_append.mp he with he | he
      · exact h e he
      · simp at he
        rw [he]
        intro r hr
        simp at hr
    rcases hcase with hpe | hpe
    · rw [hpe] at hq
      exact he2 q hq
    · rw [hpe] at hq
      exact infoKeysMatch_setKey uid uname now he2 q hq

theorem infoKeysMatch_broadcast {st : ConnState} (broken : Chan → Bool)
    (message : WireMsg) (doc : String) (ex : Option String) (h : infoKeysMatch st) :
    infoKeysMatch (broadcast broken st message doc ex).state := by
  rcases broadcast_state_cases broken st message doc ex with h0 | ⟨u, hu⟩
  · rw [h0]; exact h
  · rw [hu]; exact infoKeysMatch_disconnect doc u h

theorem infoKeysMatch_broadcast_presence {st : ConnState} (broken : Chan → Bool)
    (doc : String) (h : infoKeysMatch st) :
    infoKeysMatch (broadcast_presence broken st doc).state := by
  rcases broadcast_presence_state_cases broken st doc with h0 | ⟨u, hu⟩
  · rw [h0]; exact h
  · rw [hu]; exact infoKeysMatch_disconnect doc u h

theorem infoKeysMatch_connect {st : ConnState} (broken : Chan → Bool) (ws : Chan)
    (doc uid uname now : String) (h : infoKeysMatch st) :
    infoKeysMatch (connect broken st ws doc uid uname now).state :=
  infoKeysMatch_broadcast_presence broken doc
    (infoKeysMatch_connectState ws doc uid uname now h)

end ConnectionManager

/-- Under `infoKeysMatch`, the user ids appearing in a room's snapshot
are exactly the room's keys. -/
theorem snapshot_user_ids {st : ConnState} (doc : String) (h : infoKeysMatch st) :
    (Snapshot st doc).map (fun u => u.user_id) = memberKeys st doc := by
  unfold Snapshot memberKeys
  cases hl : lookupKey st.user_info doc with
  | none => rfl
  | some r =>
    simp only [Option.getD_some, List.map_map]
    exact List.map_congr_left (fun q hq => h _ (lookupKey_mem hl) q hq)

/-! Characterisation of `connect` and `disconnect` on a room's keys. -/

theorem containsKey_true_lookup {l : List (String × α)} {k : String}
    (h : containsKey l k = true) : ∃ v, lookupKey l k = some v := by
  cases hl : lookupKey l k with
  | none => rw [lookupKey_eq_none.mp hl] at h; cases h
  | some v => exact ⟨v, rfl⟩

theorem aligned_containsKey {st : ConnState} (doc : String) (h : aligned st) :
    containsKey st.user_info doc = containsKey st.active_connections doc := by
  rw [← containsKey_keysOf st.user_info, ← containsKey_keysOf st.active_connections, h]

namespace ConnectionManager

theorem broadcast_presence_noBroken_state (st : ConnState) (doc : String) :
    (broadcast_presence noBroken st doc).state = st ∧
      (broadcast_presence noBroken st doc).raised = false := by
  unfold broadcast_presence
  cases lookupKey st.user_info doc with
  | none => exact ⟨rfl, rfl⟩
  | some infos => simp [broadcast_noBroken]

theorem connect_noBroken_state (st : ConnState) (ws : Chan)
    (doc uid uname now : String) :
    (connect noBroken st ws doc uid uname now).state =
      connectState st ws doc uid uname now := by
  unfold connect
  exact (broadcast_presence_noBroken_state _ doc).1

theorem connectState_active_lookup (st : ConnState) (ws : Chan)
    (doc uid uname now : String) :
    lookupKey (connectState st ws doc uid uname now).active_connections doc =
      some (setKey ((lookupKey st.active_connections doc).getD []) uid ws) := by
  unfold connectState
  by_cases hc : containsKey st.active_connections doc
  · simp only [hc, if_true]
    rw [lookup_setInner]
    obtain ⟨r, hr⟩ := containsKey_true_lookup hc
    rw [hr]
    rfl
  · simp only [hc, Bool.false_eq_true, if_false]
    rw [lookup_setInner, lookupKey_append_right (by simpa using hc)]
    rw [lookupKey_eq_none.mpr (by simpa using hc)]
    rfl

theorem connectState_user_info_lookup {st : ConnState} (ws : Chan)
    (doc uid uname now : String) (hal : aligned st) :
    lookupKey (connectState st ws doc uid uname now).user_info doc =
      some (setKey ((lookupKey st.user_info doc).getD []) uid
        ⟨uid, uname, now⟩) := by
  unfold connectState
  by_cases hc : containsKey st.active_connections doc
  · simp only [hc, if_true]
    rw [lookup_setInner]
    obtain ⟨r, hr⟩ := containsKey_true_lookup ((aligned_containsKey doc hal).trans hc)
    rw [hr]
    rfl
  · have hcU : containsKey st.user_info doc = false := by
      rw [aligned_containsKey doc hal]
      simpa using hc
    simp only [hc, Bool.false_eq_true, if_false]
    rw [lookup_setInner, lookupKey_append_right hcU, lookupKey_eq_none.mpr hcU]
    rfl

theorem memberKeys_connectState {st : ConnState} (ws : Chan)
    (doc uid uname now : String) (hal : aligned st) :
    memberKeys (connectState st ws doc uid uname now) doc =
      keyInsert (memberKeys st doc) uid := by
  unfold memberKeys
  rw [connectState_user_info_lookup ws doc uid uname now hal]
  simp [setKey_keyInsert]

theorem memberKeys_connect_noBroken {st : ConnState} (ws : Chan)
    (doc uid uname now : String) (hal : aligned st) :
    memberKeys (connect noBroken st ws doc uid uname now).state doc =
      keyInsert (memberKeys st doc) uid := by
  rw [connect_noBroken_state]
  exact memberKeys_connectState ws doc uid uname now hal

end ConnectionManager

theorem containsKey_false_filter {l : List (String × α)} {k : String}
    (f : String × α → Bool) (h : containsKey l k = false) :
    containsKey (l.filter f) k = false := by
  rw [containsKey, List.any_eq_false] at h ⊢
  intro x hx
  exact h x (List.mem_of_mem_filter hx)

theorem lookupKey_dropEmpty_getD {l : List (String × List (String × α))}
    {doc : String} (hnd : (l.map (fun p => p.1)).Nodup) :
    (lookupKey (dropEmpty l doc) doc).getD [] = (lookupKey l doc).getD [] := by
  induction l with
  | nil => rfl
  | cons p ps ih =>
    have hnd2 := List.nodup_cons.mp hnd
    by_cases hp : p.1 = doc
    · have hcont : containsKey ps doc = false := by
        cases hcf : containsKey ps doc
        · rfl
        · exact absurd (containsKey_iff_mem.mp hcf) (hp ▸ hnd2.1)
      by_cases hemp : p.2.isEmpty
      · rw [dropEmpty, List.filter_cons, if_neg (by simp [hp, hemp])]
        have hnone : lookupKey (List.filter
            (fun p => !(p.1 == doc && p.2.isEmpty)) ps) doc = none :=
          lookupKey_eq_none.mpr (containsKey_false_filter _ hcont)
        rw [hnone, lookupKey, if_pos (by simp [hp])]
        simp [List.isEmpty_iff.mp hemp]
      · rw [dropEmpty, List.filter_cons,
          if_pos (by simp [hemp]), lookupKey, if_pos (by simp [hp]),
          lookupKey, if_pos (by simp [hp])]
    · rw [dropEmpty, List.filter_cons, if_pos (by simp [hp]),
        lookupKey, if_neg (by simp [hp]), lookupKey, if_neg (by simp [hp])]
      simpa [dropEmpty] using ih hnd2.2

theorem memberKeys_disconnect {st : ConnState} (doc uid : String)
    (hnd : (st.user_info.map (fun p => p.1)).Nodup) :
    memberKeys (ConnectionManager.disconnect st doc uid) doc =
      (memberKeys st doc).filter (fun u => u != uid) := by
  unfold memberKeys ConnectionManager.disconnect
  rw [lookupKey_dropEmpty_getD (by simpa [eraseInner_keys] using hnd),
    lookup_eraseInner]
  cases lookupKey st.user_info doc with
  | none => rfl
  | some r => simp [eraseKey_keys]

/-! Sequences of Join/Leave operations on one room (claim C4). -/

/-- One hub operation on a fixed room: a successful admission
(`manager.connect`) or a disconnect (`manager.disconnect`). -/
inductive RoomOp where
  | join (user_id user_name now : String) (websocket : Chan)
  | leave (user_id : String)

/-- Apply one operation to the registry; sends succeed (`noBroken`), so
the presence broadcast of `connect` does not mutate the registry. -/
def applyOp (document_id : String) (st : ConnState) : RoomOp → ConnState
  | .join uid uname now ws =>
    (ConnectionManager.connect noBroken st ws document_id uid uname now).state
  | .leave uid => ConnectionManager.disconnect st document_id uid

/-- Apply a sequence of operations in order. -/
def applyOps (document_id : String) (st : ConnState) (ops : List RoomOp) : ConnState :=
  ops.foldl (applyOp document_id) st

/-- The effect of one operation on the room's key list. -/
def applyKeyOp (keys : List String) : RoomOp → List String
  | .join uid _ _ _ => keyInsert keys uid
  | .leave uid => keys.filter (fun u => u != uid)

/-- Whether, per the spec's words, a user "joined and has not since
left" over a sequence of operations. -/
def joinedNotLeft (ops : List RoomOp) (u : String) : Bool :=
  ops.foldl (fun b op =>
    match op with
    | RoomOp.join v _ _ _ => if v == u then true else b
    | RoomOp.leave v => if v == u then false else b) false

/-- The reachable-state invariant used for claim C4: registries aligned,
keys duplicate-free, records keyed by their own user id. -/
def Inv (st : ConnState) : Prop := aligned st ∧ wfKeys st ∧ infoKeysMatch st

theorem Inv_empty : Inv ConnState.empty := by
  refine ⟨rfl, ⟨?_, ?_, ?_, ?_⟩, ?_⟩ <;> simp [ConnState.empty, infoKeysMatch]

theorem Inv_applyOp {st : ConnState} (doc : String) (op : RoomOp)
    (h : Inv st) : Inv (applyOp doc st op) := by
  obtain ⟨h1, h2, h3⟩ := h
  cases op with
  | join uid uname now ws =>
    exact ⟨ConnectionManager.aligned_connect noBroken ws doc uid uname now h1,
      ConnectionManager.wfKeys_connect noBroken ws doc uid uname now h1 h2,
      ConnectionManager.infoKeysMatch_connect noBroken ws doc uid uname now h3⟩
  | leave uid =>
    exact ⟨ConnectionManager.aligned_disconnect doc uid h1,
      ConnectionManager.wfKeys_disconnect doc uid h2,
      ConnectionManager.infoKeysMatch_disconnect doc uid h3⟩

theorem memberKeys_applyOp {st : ConnState} (doc : String) (op : RoomOp)
    (h : Inv st) :
    memberKeys (applyOp doc st op) doc = applyKeyOp (memberKeys st doc) op := by
  cases op with
  | join uid uname now ws =>
    exact ConnectionManager.memberKeys_connect_noBroken ws doc uid uname now h.1
  | leave uid => exact memberKeys_disconnect doc uid h.2.1.2.1

theorem memberKeys_applyOps (doc : String) (ops : List RoomOp) :
    ∀ st : ConnState, Inv st →
      memberKeys (applyOps doc st ops) doc =
        ops.foldl applyKeyOp (memberKeys st doc) := by
  induction ops with
  | nil => intro st _; rfl
  | cons op rest ih =>
    intro st h
    show memberKeys (applyOps doc (applyOp doc st op) rest) doc = _
    rw [ih _ (Inv_applyOp doc op h), List.foldl_cons, memberKeys_applyOp doc op h]

theorem mem_keyInsert (keys : List String) (k u : String) :
    u ∈ keyInsert keys k ↔ (u ∈ keys ∨ u = k) := by
  unfold keyInsert
  by_cases hc : keys.any (fun x => x == k)
  · have hk : k ∈ keys := by
      simpa [List.any_eq_true, beq_iff_eq] using hc
    simp only [hc, if_true]
    constructor
    · exact Or.inl
    · rintro (h | rfl)
      · exact h
      · exact hk
  · simp [hc, List.mem_append]

theorem nodup_keyInsert (keys : List String) (k : String) (h : keys.Nodup) :
    (keyInsert keys k).Nodup := by
  unfold keyInsert
  by_cases hc : keys.any (fun x => x == k)
  · simpa [hc] using h
  · have hk : k ∉ keys := by
      simpa [List.any_eq_true, beq_iff_eq] using hc
    simp [hc, List.nodup_append, h, hk]

theorem nodup_applyKeyOp (keys : List String) (op : RoomOp) (h : keys.Nodup) :
    (applyKeyOp keys op).Nodup := by
  cases op with
  | join uid uname now ws => exact nodup_keyInsert keys uid h
  | leave uid => exact h.filter _

theorem nodup_foldl_applyKeyOp (ops : List RoomOp) :
    ∀ keys : List String, keys.Nodup → (ops.foldl applyKeyOp keys).Nodup := by
  induction ops with
  | nil => intro keys h; exact h
  | cons op rest ih =>
    intro keys h
    rw [List.foldl_cons]
    exact ih _ (nodup_applyKeyOp keys op h)

theorem mem_foldl_applyKeyOp (ops : List RoomOp) (u : String) :
    ∀ keys : List String,
      u ∈ ops.foldl applyKeyOp keys ↔
        ops.foldl (fun b op =>
          match op with
          | RoomOp.join v _ _ _ => if v == u then true else b
          | RoomOp.leave v => if v == u then false else b)
          (decide (u ∈ keys)) = true := by
  induction ops with
  | nil => intro keys; simp
  | cons op rest ih =>
    intro keys
    rw [List.foldl_cons, List.foldl_cons, ih]
    have hstep : decide (u ∈ applyKeyOp keys op) =
        (match op with
          | RoomOp.join v _ _ _ => if v == u then true else decide (u ∈ keys)
          | RoomOp.leave v => if v == u then false else decide (u ∈ keys)) := by
      cases op with
      | join v uname now ws =>
        by_cases hv : v = u
        · subst hv
          simp [applyKeyOp, mem_keyInsert]
        · simp [applyKeyOp, mem_keyInsert, hv, Ne.symm hv]
      | leave v =>
        by_cases hv : v = u
        · subst hv
          simp [applyKeyOp, List.mem_filter]
        · simp [applyKeyOp, List.mem_filter, hv, Ne.symm hv]
    rw [hstep]

/-! Concrete fixtures used by witnesses and counterexamples. -/

/-- Presence record of user a. -/
def infoA : UserInfo := ⟨"a", "Alice", "t0"⟩

/-- Presence record of user b. -/
def infoB : UserInfo := ⟨"b", "Bob", "t1"⟩

/-- Presence record of user c. -/
def infoC : UserInfo := ⟨"c", "Carol", "t2"⟩

/-- A registry with one room "d" holding members a (channel 0) and
b (channel 2). -/
def st2m : ConnState :=
  ⟨[("d", [("a", 0), ("b", 2)])], [("d", [("a", infoA), ("b", infoB)])]⟩

/-- A registry with one room "d" holding members a (channel 0),
b (channel 1) and c (channel 2). -/
def st3m : ConnState :=
  ⟨[("d", [("a", 0), ("b", 1), ("c", 2)])],
   [("d", [("a", infoA), ("b", infoB), ("c", infoC)])]⟩

/-- The environment in which exactly channel 1 is broken. -/
def brk1 : Chan → Bool := fun c => c == 1

/-- A registry with one room "d" whose sole member a sits on the broken
channel 1. -/
def stBrk : ConnState := ⟨[("d", [("a", 1)])], [("d", [("a", infoA)])]⟩

/-- An admission environment: token "good" decodes to collaborator u,
token "nouser" decodes to a payload without a user id, any other token
fails to decode; document "d" has collaborators u and a. -/
def env1 : Env :=
  ⟨fun t =>
    if t == "good" then some ⟨some "u", some "U"⟩
    else if t == "nouser" then some ⟨none, some "U"⟩
    else none,
   fun d => if d == "d" then some ["u", "a"] else none⟩

/-- Claim C1, counterexample: the inbound payload "edit hello" from
Active member a in room "d" (other member: b) is not broadcast at all —
`json.loads` rejects it, the relay is skipped, and the connection is
closed with "Internal error" — refuting "for every inbound message ...
the hub broadcasts the raw payload ... to every other member". -/
theorem C1_counterexample_nonjson_dropped :
    (handle_event noBroken st2m "d" "a" (RecvEvent.msg "edit hello")).delivered = [] ∧
    ¬ ("b", WireMsg.text "edit hello") ∈
      (handle_event noBroken st2m "d" "a" (RecvEvent.msg "edit hello")).delivered ∧
    (handle_event noBroken st2m "d" "a" (RecvEvent.msg "edit hello")).outcome =
      StepOutcome.closedInternal := by
  decide

/-- Claim C2, code bug, evaluated at the failing input: in room "d" with
members a, b, c where b's channel is broken, a relays the JSON payload
"[]"; b is removed (absent from the next snapshot, as claimed), but the
removal mutates the dict being iterated, the loop raises `RuntimeError`,
nothing at all is delivered — c never receives the message — and the
sender's connection is closed with "Internal error". -/
theorem C2_failed_send_aborts_fanout :
    (handle_event brk1 st3m "d" "a" (RecvEvent.msg "[]")).delivered = [] ∧
    (handle_event brk1 st3m "d" "a" (RecvEvent.msg "[]")).outcome =
      StepOutcome.closedInternal ∧
    memberKeys (handle_event brk1 st3m "d" "a" (RecvEvent.msg "[]")).state "d" =
      ["a", "c"] ∧
    activeKeys (handle_event brk1 st3m "d" "a" (RecvEvent.msg "[]")).state "d" =
      ["a", "c"] := by
  decide

/-- Claim C3, code bug, evaluated at the failing input: member a of room
"d" sends the non-JSON payload "not json"; the exception reaches the
outer handler, a's connection is closed with "Internal error" — a
detected closure — yet a's registry entries persist (the state is
unchanged) and no presence snapshot is broadcast to the remaining
members. -/
theorem C3_internal_fault_leaves_orphan :
    (handle_event noBroken st3m "d" "a" (RecvEvent.msg "not json")).outcome =
      StepOutcome.closedInternal ∧
    (handle_event noBroken st3m "d" "a" (RecvEvent.msg "not json")).state = st3m ∧
    (handle_event noBroken st3m "d" "a" (RecvEvent.msg "not json")).delivered = [] ∧
    "a" ∈ memberKeys (handle_event noBroken st3m "d" "a"
      (RecvEvent.msg "not json")).state "d" := by
  decide

theorem filter_excluded_map (room : List (String × Chan)) (uid : String)
    (m : WireMsg) (h : ¬ uid = "") :
    (room.filter (fun p => !(ConnectionManager.excludedBy (some uid) p.1))).map
        (fun p => (p.1, m)) =
      ((room.map (fun p => p.1)).filter (fun u => u != uid)).map
        (fun u => (u, m)) := by
  rw [List.filter_map, List.map_map]
  have hf : ((fun u => (u, m)) ∘ (fun (p : String × Chan) => p.1)) =
      (fun (p : String × Chan) => (p.1, m)) := rfl
  rw [hf]
  apply congrArg (List.map _)
  apply List.filter_congr
  intro p _
  simp [ConnectionManager.excludedBy, Function.comp, h, bne]

theorem handle_event_msg_noBroken (st : ConnState) (doc uid data : String)
    (hjson : jsonParses data = true) :
    handle_event noBroken st doc uid (RecvEvent.msg data) =
      ⟨st, (((lookupKey st.active_connections doc).getD []).filter
          (fun p => !(ConnectionManager.excludedBy (some uid) p.1))).map
          (fun p => (p.1, WireMsg.text data)), StepOutcome.looping⟩ := by
  simp only [handle_event, hjson, if_true, ConnectionManager.broadcast_noBroken,
    Bool.false_eq_true, if_false]

/-- Claim C1 (amended): for every inbound message that `json.loads`
accepts, from an Active member with a non-empty user id the hub
broadcasts the raw payload unchanged to every other member currently in
the room's connection map, never delivers it to the sender, keeps the
registry unchanged, and keeps the connection Active. -/
theorem C1_json_relay_to_all_others (st : ConnState) (doc uid data : String)
    (hjson : jsonParses data = true) (huid : ¬ uid = "") :
    (handle_event noBroken st doc uid (RecvEvent.msg data)).outcome =
      StepOutcome.looping ∧
    (handle_event noBroken st doc uid (RecvEvent.msg data)).state = st ∧
    (handle_event noBroken st doc uid (RecvEvent.msg data)).delivered =
      ((activeKeys st doc).filter (fun u => u != uid)).map
        (fun u => (u, WireMsg.text data)) ∧
    ∀ x ∈ (handle_event noBroken st doc uid (RecvEvent.msg data)).delivered,
      ¬ x.1 = uid := by
  have hh := handle_event_msg_noBroken st doc uid data hjson
  refine ⟨by rw [hh], by rw [hh], ?_, ?_⟩
  · rw [hh]
    exact filter_excluded_map _ uid _ huid
  · rw [hh]
    intro x hx
    simp only [List.mem_map, List.mem_filter] at hx
    obtain ⟨u, ⟨hu1, hu2⟩, hxu⟩ := hx
    rw [← hxu]
    intro hcontra
    simp only [ConnectionManager.excludedBy] at hu2
    simp [huid] at hu2
    exact hu2 hcontra

/-- Witness for C1 at a concrete input: in room "d" = [a, b], member a
relays the JSON payload "[1, 2]"; only b receives it, unchanged. -/
theorem C1_witness :
    jsonParses "[1, 2]" = true ∧ ¬ "a" = "" ∧
    (handle_event noBroken st2m "d" "a" (RecvEvent.msg "[1, 2]")).outcome =
      StepOutcome.looping ∧
    (handle_event noBroken st2m "d" "a" (RecvEvent.msg "[1, 2]")).delivered =
      [("b", WireMsg.text "[1, 2]")] := by
  refine ⟨by decide, by decide,
    (C1_json_relay_to_all_others st2m "d" "a" "[1, 2]" (by decide) (by decide)).1, ?_⟩
  rw [(C1_json_relay_to_all_others st2m "d" "a" "[1, 2]" (by decide) (by decide)).2.2.1]
  decide

/-- Claim C9 (amended): the hub is an opaque relay only for payloads that
`json.loads` accepts: any two such payloads are forwarded verbatim to the
same recipients with the connection staying Active and the registry
unchanged, while a payload that fails to parse is not forwarded at all
and the connection is closed with "Internal error". -/
theorem C9_opaque_relay_of_json (st : ConnState) (doc uid d1 d2 : String)
    (h1 : jsonParses d1 = true) (h2 : jsonParses d2 = true) :
    (handle_event noBroken st doc uid (RecvEvent.msg d1)).state = st ∧
    (handle_event noBroken st doc uid (RecvEvent.msg d1)).outcome =
      StepOutcome.looping ∧
    (handle_event noBroken st doc uid (RecvEvent.msg d2)).outcome =
      StepOutcome.looping ∧
    (handle_event noBroken st doc uid (RecvEvent.msg d1)).delivered.map
        (fun x => x.1) =
      (handle_event noBroken st doc uid (RecvEvent.msg d2)).delivered.map
        (fun x => x.1) ∧
    (∀ x ∈ (handle_event noBroken st doc uid (RecvEvent.msg d1)).delivered,
      x.2 = WireMsg.text d1) ∧
    ∀ d : String, jsonParses d = false →
      handle_event noBroken st doc uid (RecvEvent.msg d) =
        ⟨st, [], StepOutcome.closedInternal⟩ := by
  have hh1 := handle_event_msg_noBroken st doc uid d1 h1
  have hh2 := handle_event_msg_noBroken st doc uid d2 h2
  refine ⟨by rw [hh1], by rw [hh1], by rw [hh2], ?_, ?_, ?_⟩
  · rw [hh1, hh2]
    simp [List.map_map, Function.comp]
  · rw [hh1]
    intro x hx
    simp only [List.mem_map] at hx
    obtain ⟨u, _, hxu⟩ := hx
    rw [← hxu]
  · intro d hd
    simp only [handle_event, hd, Bool.false_eq_true, if_false]

/-- Witness for C9 at concrete inputs: in room "d" = [a, b], the JSON
payloads "[7]" and "null" sent by a reach the same recipient set, and a
non-JSON payload is dropped with the stream closed. -/
theorem C9_witness :
    jsonParses "[7]" = true ∧ jsonParses "null" = true ∧
    (handle_event noBroken st2m "d" "a" (RecvEvent.msg "[7]")).delivered.map
        (fun x => x.1) =
      (handle_event noBroken st2m "d" "a" (RecvEvent.msg "null")).delivered.map
        (fun x => x.1) ∧
    handle_event noBroken st2m "d" "a" (RecvEvent.msg "payload") =
      ⟨st2m, [], StepOutcome.closedInternal⟩ := by
  refine ⟨by decide, by decide,
    (C9_opaque_relay_of_json st2m "d" "a" "[7]" "null" (by decide) (by decide)).2.2.2.1,
    (C9_opaque_relay_of_json st2m "d" "a" "[7]" "null" (by decide)
      (by decide)).2.2.2.2.2 "payload" (by decide)⟩

theorem Inv_applyOps (doc : String) (ops : List RoomOp) :
    ∀ st : ConnState, Inv st → Inv (applyOps doc st ops) := by
  induction ops with
  | nil => intro st h; exact h
  | cons op rest ih =>
    intro st h
    exact ih _ (Inv_applyOp doc op h)

/-- Claim C4: for every finite sequence of Join/Leave operations on one
room starting from the empty registry, the final membership snapshot,
projected to user ids, has no duplicate entries and contains exactly the
users that joined and have not since left. -/
theorem C4_snapshot_is_joined_not_left (document_id : String) (ops : List RoomOp) :
    ((Snapshot (applyOps document_id ConnState.empty ops) document_id).map
      (fun v => v.user_id)).Nodup ∧
    ∀ u : String,
      u ∈ (Snapshot (applyOps document_id ConnState.empty ops) document_id).map
          (fun v => v.user_id) ↔ joinedNotLeft ops u = true := by
  have hinv : Inv (applyOps document_id ConnState.empty ops) :=
    Inv_applyOps document_id ops ConnState.empty Inv_empty
  have hsnap := snapshot_user_ids document_id hinv.2.2
  have hkeys := memberKeys_applyOps document_id ops ConnState.empty Inv_empty
  have hempty : memberKeys ConnState.empty document_id = [] := rfl
  rw [hsnap, hkeys, hempty]
  refine ⟨nodup_foldl_applyKeyOp ops [] List.nodup_nil, ?_⟩
  intro u
  have hm := mem_foldl_applyKeyOp ops u []
  simpa [joinedNotLeft] using hm

theorem noEmptyRooms_no_key {st : ConnState} (doc : String)
    (h : noEmptyRooms st) (hm : memberKeys st doc = []) :
    containsKey st.user_info doc = false := by
  cases hc : containsKey st.user_info doc
  · rfl
  · exfalso
    obtain ⟨r, hr⟩ := containsKey_true_lookup hc
    have hmem := lookupKey_mem hr
    have hne := h.2 _ hmem
    unfold memberKeys at hm
    rw [hr] at hm
    simp at hm
    exact hne hm

/-- Claim C7: after a connect, a disconnect, or a broadcast with its
failure-triggered removals, no room with zero members remains in either
registry, and a room whose member list became empty has no key left in
the registry. -/
theorem C7_no_empty_room_retained (broken : Chan → Bool) (st : ConnState)
    (ws : Chan) (doc uid uname now : String) (message : WireMsg)
    (ex : Option String) (h : noEmptyRooms st) :
    noEmptyRooms (ConnectionManager.connect broken st ws doc uid uname now).state ∧
    noEmptyRooms (ConnectionManager.disconnect st doc uid) ∧
    noEmptyRooms (ConnectionManager.broadcast broken st message doc ex).state ∧
    (memberKeys (ConnectionManager.disconnect st doc uid) doc = [] →
      containsKey (ConnectionManager.disconnect st doc uid).user_info doc = false) :=
  ⟨ConnectionManager.noEmptyRooms_connect broken ws doc uid uname now h,
   ConnectionManager.noEmptyRooms_disconnect doc uid h,
   ConnectionManager.noEmptyRooms_broadcast broken message doc ex h,
   fun hm => noEmptyRooms_no_key doc
     (ConnectionManager.noEmptyRooms_disconnect doc uid h) hm⟩

/-- Witness for C7 at concrete inputs: st3m has no empty rooms, removing
b keeps it that way, and when the last member of stBrk's room "d" leaves
the room's key disappears from the registry. -/
theorem C7_witness :
    noEmptyRooms st3m ∧
    noEmptyRooms (ConnectionManager.disconnect st3m "d" "b") ∧
    containsKey (ConnectionManager.disconnect stBrk "d" "a").user_info "d" = false :=
  ⟨by decide,
   (C7_no_empty_room_retained noBroken st3m 0 "d" "b" "B" "t" (WireMsg.text "x")
     none (by decide)).2.1,
   (C7_no_empty_room_retained noBroken stBrk 0 "d" "a" "A" "t" (WireMsg.text "x")
     none (by decide)).2.2.2 (by decide)⟩

/-- Claim C10: every ConnectionManager operation — connect, disconnect,
and broadcast with its failure-triggered removals — preserves the
agreement of `active_connections` and `user_info` on document keys and on
the user-id keys of every room. -/
theorem C10_registries_key_aligned (broken : Chan → Bool) (st : ConnState)
    (ws : Chan) (doc uid uname now : String) (message : WireMsg)
    (ex : Option String) (h : aligned st) :
    aligned (ConnectionManager.connect broken st ws doc uid uname now).state ∧
    aligned (ConnectionManager.disconnect st doc uid) ∧
    aligned (ConnectionManager.broadcast broken st message doc ex).state :=
  ⟨ConnectionManager.aligned_connect broken ws doc uid uname now h,
   ConnectionManager.aligned_disconnect doc uid h,
   ConnectionManager.aligned_broadcast broken message doc ex h⟩

/-- Witness for C10 at a concrete input: the registries of st3m agree on
keys, and still agree after a broadcast in which the send to b fails and
b is removed. -/
theorem C10_witness :
    aligned st3m ∧
    aligned (ConnectionManager.broadcast brk1 st3m (WireMsg.text "x") "d"
      (some "a")).state :=
  ⟨by decide,
   (C10_registries_key_aligned brk1 st3m 0 "d" "a" "A" "t" (WireMsg.text "x")
     (some "a") (by decide)).2.2⟩

theorem lookup_keysOf (outer : List (String × List (String × α))) (k : String) :
    lookupKey (keysOf outer) k =
      (lookupKey outer k).map (fun l => l.map (fun q => q.1)) := by
  induction outer with
  | nil => rfl
  | cons p ps ih =>
    simp only [keysOf, List.map_cons, lookupKey]
    by_cases h : p.1 = k
    · simp [h]
    · simp only [keysOf] at ih
      simp [h, ih]

theorem getD_map_fst (o : Option (List (String × α))) :
    (o.map (fun l => l.map (fun q => q.1))).getD [] =
      (o.getD []).map (fun q => q.1) := by
  cases o <;> rfl

theorem aligned_activeKeys {st : ConnState} (doc : String) (h : aligned st) :
    activeKeys st doc = memberKeys st doc := by
  unfold activeKeys memberKeys
  rw [← getD_map_fst, ← getD_map_fst, ← lookup_keysOf, ← lookup_keysOf, h]

/-- Claim C8: joining with a user id already present in the room
replaces that member's channel with the new one, the member count does
not increase, the room keeps at most one entry per user, and the keys of
both registries are unchanged. -/
theorem C8_rejoin_replaces_channel (st : ConnState) (ws : Chan)
    (doc uid uname now : String) (hal : aligned st)
    (hpresent : containsKey ((lookupKey st.active_connections doc).getD []) uid = true)
    (hnd : (memberKeys st doc).Nodup) :
    memberKeys (ConnectionManager.connect noBroken st ws doc uid uname now).state
      doc = memberKeys st doc ∧
    activeKeys (ConnectionManager.connect noBroken st ws doc uid uname now).state
      doc = activeKeys st doc ∧
    lookupKey ((lookupKey (ConnectionManager.connect noBroken st ws doc uid uname
      now).state.active_connections doc).getD []) uid = some ws ∧
    (memberKeys (ConnectionManager.connect noBroken st ws doc uid uname now).state
      doc).Nodup := by
  have hanyA : (((lookupKey st.active_connections doc).getD []).map
      (fun p => p.1)).any (fun x => x == uid) = true := by
    rw [any_map_comp]
    exact hpresent
  have hkeyIns : keyInsert (memberKeys st doc) uid = memberKeys st doc := by
    unfold keyInsert
    rw [if_pos ?_]
    rw [← aligned_activeKeys doc hal]
    exact hanyA
  refine ⟨?_, ?_, ?_, ?_⟩
  · rw [ConnectionManager.memberKeys_connect_noBroken ws doc uid uname now hal,
      hkeyIns]
  · unfold activeKeys
    rw [ConnectionManager.connect_noBroken_state,
      ConnectionManager.connectState_active_lookup]
    simp only [Option.getD_some, setKey_keyInsert]
    unfold keyInsert
    rw [if_pos hanyA]
  · rw [ConnectionManager.connect_noBroken_state,
      ConnectionManager.connectState_active_lookup]
    simp [lookupKey_setKey]
  · rw [ConnectionManager.memberKeys_connect_noBroken ws doc uid uname now hal,
      hkeyIns]
    exact hnd

/-- Witness for C8 at a concrete input: b rejoins room "d" of st3m with
channel 9; the member list is unchanged and b's channel is replaced. -/
theorem C8_witness :
    aligned st3m ∧
    memberKeys (ConnectionManager.connect noBroken st3m 9 "d" "b" "B2" "t9").state
      "d" = ["a", "b", "c"] ∧
    lookupKey ((lookupKey (ConnectionManager.connect noBroken st3m 9 "d" "b" "B2"
      "t9").state.active_connections "d").getD []) "b" = some 9 := by
  refine ⟨by decide, ?_,
    (C8_rejoin_replaces_channel st3m 9 "d" "b" "B2" "t9" (by decide) (by decide)
      (by decide)).2.2.1⟩
  rw [(C8_rejoin_replaces_channel st3m 9 "d" "b" "B2" "t9" (by decide) (by decide)
    (by decide)).1]
  decide

/-- Claim C5, counterexample, refuting both halves of the claim at
concrete inputs.  Reasons: token "bad" fails to decode and the stream is
closed with (1011, "Internal error") — exactly the close performed for an
internal fault, as the second scenario shows, so the invalid-credential
condition has no distinguishing reason.  Registry state: that second
scenario — a valid collaborator admission whose presence broadcast
raises — is itself a rejected admission (stream closed 1011), yet it
creates registry state: the state changes and the joiner u's entries
persist in the room. -/
theorem C5_counterexample_invalid_token_reason :
    (websocket_endpoint env1 brk1 stBrk 7 "d" (some "bad") "t9").outcome =
      AdmitOutcome.closed 1011 "Internal error" ∧
    (websocket_endpoint env1 brk1 stBrk 7 "d" (some "good") "t9").outcome =
      AdmitOutcome.closed 1011 "Internal error" ∧
    (websocket_endpoint env1 brk1 stBrk 7 "d" (some "bad") "t9").outcome =
      (websocket_endpoint env1 brk1 stBrk 7 "d" (some "good") "t9").outcome ∧
    ¬ (websocket_endpoint env1 brk1 stBrk 7 "d" (some "good") "t9").state = stBrk ∧
    memberKeys (websocket_endpoint env1 brk1 stBrk 7 "d" (some "good")
      "t9").state "d" = ["u"] ∧
    activeKeys (websocket_endpoint env1 brk1 stBrk 7 "d" (some "good")
      "t9").state "d" = ["u"] := by
  decide

theorem contains_eq_false_of_not_mem {l : List String} {a : String}
    (h : a ∉ l) : l.contains a = false := by
  cases hc : l.contains a
  · rfl
  · exact absurd (List.elem_iff.mp hc) h

/-- Claim C5 (amended): the rejection paths that run before the hub
mutates the registry — a missing credential, an undecodable (invalid or
expired) credential, a decodable credential without identity fields, and
a missing-document/non-collaborator — close the stream and create no
registry state (state unchanged, nothing delivered); the first, third and
fourth each have their own reason, but the undecodable credential closes
with (1011, "Internal error") — the same code and reason as an internal
fault — rather than a credential-specific reason.  The remaining
rejection path, an internal fault during admission after the access
checks (the presence broadcast of `connect` raising), also closes with
(1011, "Internal error") but does create registry state: the endpoint
ends in the post-`connect` state, with the joiner's entries added. -/
theorem C5_rejection_paths (env : Env) (broken : Chan → Bool) (st : ConnState)
    (ws : Chan) (doc now : String) (token : Option String) (t : String) :
    (pyTruthy token = false →
      websocket_endpoint env broken st ws doc token now =
        ⟨st, [], AdmitOutcome.closed 1008 "Token required"⟩) ∧
    (¬ t = "" → env.decodeToken t = none →
      websocket_endpoint env broken st ws doc (some t) now =
        ⟨st, [], AdmitOutcome.closed 1011 "Internal error"⟩) ∧
    (∀ payload : JwtPayload, ¬ t = "" → env.decodeToken t = some payload →
      (pyTruthy payload.user_id = false ∨ pyTruthy payload.username = false) →
      websocket_endpoint env broken st ws doc (some t) now =
        ⟨st, [], AdmitOutcome.closed 1008 "Invalid token"⟩) ∧
    (∀ uid uname : String, ¬ t = "" →
      env.decodeToken t = some ⟨some uid, some uname⟩ →
      ¬ uid = "" → ¬ uname = "" →
      (env.documents doc = none ∨
        ∃ collabs, env.documents doc = some collabs ∧ uid ∉ collabs) →
      websocket_endpoint env broken st ws doc (some t) now =
        ⟨st, [], AdmitOutcome.closed 1008 "Access denied"⟩) ∧
    (∀ uid uname : String, ¬ t = "" →
      env.decodeToken t = some ⟨some uid, some uname⟩ →
      ¬ uid = "" → ¬ uname = "" →
      (∃ collabs, env.documents doc = some collabs ∧ uid ∈ collabs) →
      (ConnectionManager.connect broken st ws doc uid uname now).raised = true →
      websocket_endpoint env broken st ws doc (some t) now =
        ⟨(ConnectionManager.connect broken st ws doc uid uname now).state,
         (ConnectionManager.connect broken st ws doc uid uname now).delivered,
         AdmitOutcome.closed 1011 "Internal error"⟩) := by
  refine ⟨?_, ?_, ?_, ?_, ?_⟩
  · intro h
    simp only [websocket_endpoint, h, Bool.not_false, if_true]
  · intro ht hdec
    have hpt : pyTruthy (some t) = true := by simp [pyTruthy, ht]
    simp only [websocket_endpoint, hpt, Bool.not_true, Bool.false_eq_true, if_false,
      Option.getD_some, hdec]
  · intro payload ht hdec hfalsy
    have hpt : pyTruthy (some t) = true := by simp [pyTruthy, ht]
    simp only [websocket_endpoint, hpt, Bool.not_true, Bool.false_eq_true, if_false,
      Option.getD_some, hdec]
    rcases hfalsy with hf | hf <;> simp [hf]
  · intro uid uname ht hdec huid huname hdocs
    have hpt : pyTruthy (some t) = true := by simp [pyTruthy, ht]
    have hu : pyTruthy (some uid) = true := by simp [pyTruthy, huid]
    have hn : pyTruthy (some uname) = true := by simp [pyTruthy, huname]
    simp only [websocket_endpoint, hpt, Bool.not_true, Bool.false_eq_true, if_false,
      Option.getD_some, hdec, hu, Bool.false_or]
    rcases hdocs with hd | ⟨collabs, hd, hmem⟩
    · simp [hn, hd]
    · simp only [hn, Bool.not_true, Bool.or_false, Bool.false_eq_true, if_false, hd,
        contains_eq_false_of_not_mem hmem, Bool.not_false, if_true]
  · intro uid uname ht hdec huid huname hdocs hraised
    have hpt : pyTruthy (some t) = true := by simp [pyTruthy, ht]
    have hu : pyTruthy (some uid) = true := by simp [pyTruthy, huid]
    have hn : pyTruthy (some uname) = true := by simp [pyTruthy, huname]
    obtain ⟨collabs, hd, hmem⟩ := hdocs
    have hcont : collabs.contains uid = true := List.elem_iff.mpr hmem
    simp only [websocket_endpoint, hpt, Bool.not_true, Bool.false_eq_true, if_false,
      Option.getD_some, hdec, hu, hn, Bool.false_or, hd, hcont, Bool.not_true,
      Bool.false_eq_true, if_false, hraised, if_true]

/-- Witness for C5 at concrete inputs (one per rejection path): no
token, an undecodable token, a decodable token without a user id, a
collaborator token for an absent document, and a collaborator admission
whose presence broadcast raises. -/
theorem C5_witness :
    websocket_endpoint env1 noBroken ConnState.empty 7 "d" none "t9" =
      ⟨ConnState.empty, [], AdmitOutcome.closed 1008 "Token required"⟩ ∧
    websocket_endpoint env1 noBroken ConnState.empty 7 "d" (some "bad") "t9" =
      ⟨ConnState.empty, [], AdmitOutcome.closed 1011 "Internal error"⟩ ∧
    websocket_endpoint env1 noBroken ConnState.empty 7 "d" (some "nouser") "t9" =
      ⟨ConnState.empty, [], AdmitOutcome.closed 1008 "Invalid token"⟩ ∧
    websocket_endpoint env1 noBroken ConnState.empty 7 "nope" (some "good") "t9" =
      ⟨ConnState.empty, [], AdmitOutcome.closed 1008 "Access denied"⟩ ∧
    websocket_endpoint env1 brk1 stBrk 7 "d" (some "good") "t9" =
      ⟨(ConnectionManager.connect brk1 stBrk 7 "d" "u" "U" "t9").state,
       (ConnectionManager.connect brk1 stBrk 7 "d" "u" "U" "t9").delivered,
       AdmitOutcome.closed 1011 "Internal error"⟩ :=
  ⟨(C5_rejection_paths env1 noBroken ConnState.empty 7 "d" "t9" none "x").1
     (by decide),
   (C5_rejection_paths env1 noBroken ConnState.empty 7 "d" "t9" (some "bad")
     "bad").2.1 (by decide) (by decide),
   (C5_rejection_paths env1 noBroken ConnState.empty 7 "d" "t9" (some "nouser")
     "nouser").2.2.1 ⟨none, some "U"⟩ (by decide) (by decide) (Or.inl (by decide)),
   (C5_rejection_paths env1 noBroken ConnState.empty 7 "nope" "t9" (some "good")
     "good").2.2.2.1 "u" "U" (by decide) (by decide) (by decide) (by decide)
     (Or.inl (by decide)),
   (C5_rejection_paths env1 brk1 stBrk 7 "d" "t9" (some "good") "good").2.2.2.2
     "u" "U" (by decide) (by decide) (by decide) (by decide)
     ⟨["u", "a"], by decide, by decide⟩ (by decide)⟩

theorem filter_not_excluded_none (l : List (String × Chan)) :
    l.filter (fun p => !(ConnectionManager.excludedBy none p.1)) = l := by
  induction l with
  | nil => rfl
  | cons p ps ih => simp [ConnectionManager.excludedBy, List.filter_cons, ih]

theorem broadcast_presence_noBroken_delivered {st : ConnState} {doc : String}
    {r : List (String × UserInfo)} (h : lookupKey st.user_info doc = some r) :
    (ConnectionManager.broadcast_presence noBroken st doc).delivered =
      ((lookupKey st.active_connections doc).getD []).map
        (fun p => (p.1, WireMsg.presence (r.map (fun q => q.2)))) := by
  unfold ConnectionManager.broadcast_presence
  simp only [h, ConnectionManager.broadcast_noBroken, filter_not_excluded_none]

/-- Claim C6: a valid-credential admission of a collaborator of an
existing document who is not yet in the room ends `connected`, adds that
user as exactly one new member, and sends exactly one presence broadcast,
derived from the fresh post-add snapshot (which contains the joiner) and
delivered to every member of the room including the joiner. -/
theorem C6_admission_adds_member_and_announces (env : Env) (st : ConnState)
    (ws : Chan) (doc t uid uname now : String) (collabs : List String)
    (ht : ¬ t = "") (hdec : env.decodeToken t = some ⟨some uid, some uname⟩)
    (huid : ¬ uid = "") (huname : ¬ uname = "")
    (hdoc : env.documents doc = some collabs) (hmem : uid ∈ collabs)
    (hal : aligned st)
    (hfresh : containsKey ((lookupKey st.user_info doc).getD []) uid = false) :
    (websocket_endpoint env noBroken st ws doc (some t) now).outcome =
      AdmitOutcome.connected uid uname ∧
    memberKeys (websocket_endpoint env noBroken st ws doc (some t) now).state doc =
      memberKeys st doc ++ [uid] ∧
    Snapshot (websocket_endpoint env noBroken st ws doc (some t) now).state doc =
      Snapshot st doc ++ [⟨uid, uname, now⟩] ∧
    (websocket_endpoint env noBroken st ws doc (some t) now).delivered =
      (memberKeys (websocket_endpoint env noBroken st ws doc (some t) now).state
        doc).map (fun u => (u, WireMsg.presence
          (Snapshot (websocket_endpoint env noBroken st ws doc (some t) now).state
            doc))) := by
  have hpt : pyTruthy (some t) = true := by simp [pyTruthy, ht]
  have hu : pyTruthy (some uid) = true := by simp [pyTruthy, huid]
  have hn : pyTruthy (some uname) = true := by simp [pyTruthy, huname]
  have hcont : collabs.contains uid = true := List.elem_iff.mpr hmem
  have hraised : (ConnectionManager.connect noBroken st ws doc uid uname
      now).raised = false := by
    unfold ConnectionManager.connect
    exact (ConnectionManager.broadcast_presence_noBroken_state _ doc).2
  have hep : websocket_endpoint env noBroken st ws doc (some t) now =
      ⟨(ConnectionManager.connect noBroken st ws doc uid uname now).state,
       (ConnectionManager.connect noBroken st ws doc uid uname now).delivered,
       AdmitOutcome.connected uid uname⟩ := by
    simp only [websocket_endpoint, hpt, Bool.not_true, Bool.false_eq_true, if_false,
      Option.getD_some, hdec, hu, hn, Bool.false_or, hdoc, hcont, hraised]
  have hst := ConnectionManager.connect_noBroken_state st ws doc uid uname now
  have hlook2 := ConnectionManager.connectState_user_info_lookup ws doc uid uname
    now hal
  have hlookA2 := ConnectionManager.connectState_active_lookup st ws doc uid uname
    now
  have hal2 := ConnectionManager.aligned_connectState ws doc uid uname now hal
  have hsnap2 : Snapshot (ConnectionManager.connectState st ws doc uid uname now) doc =
      Snapshot st doc ++ [⟨uid, uname, now⟩] := by
    unfold Snapshot
    rw [hlook2]
    simp only [Option.getD_some]
    rw [setKey_eq_append hfresh]
    simp
  have hmk2 : memberKeys (ConnectionManager.connectState st ws doc uid uname now) doc =
      memberKeys st doc ++ [uid] := by
    unfold memberKeys
    rw [hlook2]
    simp only [Option.getD_some]
    rw [setKey_eq_append hfresh]
    simp
  refine ⟨by rw [hep], ?_, ?_, ?_⟩
  · rw [hep]
    show memberKeys (ConnectionManager.connect noBroken st ws doc uid uname
      now).state doc = _
    rw [hst]
    exact hmk2
  · rw [hep]
    show Snapshot (ConnectionManager.connect noBroken st ws doc uid uname
      now).state doc = _
    rw [hst]
    exact hsnap2
  · have hkeysA : (setKey ((lookupKey st.active_connections doc).getD []) uid
        ws).map (fun p => p.1) =
        memberKeys (ConnectionManager.connectState st ws doc uid uname now) doc := by
      rw [← aligned_activeKeys doc hal2]
      unfold activeKeys
      rw [hlookA2]
      rfl
    have hsnapeq : (setKey ((lookupKey st.user_info doc).getD []) uid
        ⟨uid, uname, now⟩).map (fun q => q.2) =
        Snapshot (ConnectionManager.connectState st ws doc uid uname now) doc := by
      unfold Snapshot
      rw [hlook2]
      rfl
    rw [hep]
    show (ConnectionManager.connect noBroken st ws doc uid uname now).delivered = _
    rw [hst]
    have hdel : (ConnectionManager.connect noBroken st ws doc uid uname
        now).delivered =
        (ConnectionManager.broadcast_presence noBroken
          (ConnectionManager.connectState st ws doc uid uname now) doc).delivered :=
      rfl
    rw [hdel, broadcast_presence_noBroken_delivered hlook2, hlookA2]
    simp only [Option.getD_some]
    rw [← hkeysA, ← hsnapeq, List.map_map]
    rfl

/-- Witness for C6 at a concrete input: user u is admitted to room "d"
of st2m with token "good"; the member list gains exactly u and the
presence event reaches a, b and u. -/
theorem C6_witness :
    (websocket_endpoint env1 noBroken st2m 9 "d" (some "good") "t9").outcome =
      AdmitOutcome.connected "u" "U" ∧
    memberKeys (websocket_endpoint env1 noBroken st2m 9 "d" (some "good")
      "t9").state "d" = ["a", "b", "u"] ∧
    (websocket_endpoint env1 noBroken st2m 9 "d" (some "good") "t9").delivered.map
      (fun x => x.1) = ["a", "b", "u"] := by
  have h := C6_admission_adds_member_and_announces env1 st2m 9 "d" "good" "u" "U"
    "t9" ["u", "a"] (by decide) (by decide) (by decide) (by decide) (by decide)
    (by decide) (by decide) (by decide)
  refine ⟨h.1, ?_, ?_⟩
  · rw [h.2.1]
    decide
  · rw [h.2.2.2, List.map_map]
    rw [h.2.1]
    decide

/-- Claim C9, counterexample: the relay does not behave identically for
every payload: from member b of room "d", the JSON payload "[7]" is
forwarded and the connection stays Active, while the non-JSON payload
"ops 7" is not forwarded and the connection is closed. -/
theorem C9_counterexample_payload_sensitive :
    (handle_event noBroken st3m "d" "b" (RecvEvent.msg "[7]")).outcome =
      StepOutcome.looping ∧
    (handle_event noBroken st3m "d" "b" (RecvEvent.msg "ops 7")).outcome =
      StepOutcome.closedInternal ∧
    ¬ (handle_event noBroken st3m "d" "b" (RecvEvent.msg "[7]")).delivered = [] ∧
    (handle_event noBroken st3m "d" "b" (RecvEvent.msg "ops 7")).delivered = [] := by
  decide

end TeamWrite
